import Mathlib

/-!
Verification of the training loop of `src/train.py` (Bird_classification).

The development shallowly embeds the pure control/data logic of the file:
tensors become lists of rationals, Python floats become rationals (with an
explicit `inf` marker where `math.inf` occurs), exceptions become `Except`
errors, and the mutable loop state is threaded explicitly.
-/

deriving instance DecidableEq for Except

namespace BirdTrain

/-! ## AccuracyEvaluator: `accuracy` (train.py lines 136-152)

`output.topk(maxk, 1, True, True)` returns, per sample (row), the indices of
the `maxk` largest scores in descending order.  Tie order between equal
scores is implementation-defined in torch; we fix the earliest index.  The
transpose/`eq`/`expand_as` dance compares, for each sample, each of its top
`maxk` indices with the true label; `correct[:k]` keeps the top `k` of them.
-/

/-- Index of the largest score of `row` among the candidate indices `pool`
(out-of-range indices read as 0, which never happens on real calls); on a
tie the earliest candidate wins.  Models the selection order produced by
`torch.topk(..., largest=True, sorted=True)`. -/
def argmaxIdx (row : List ℚ) : List ℕ → Option ℕ
  | [] => none
  | i :: rest =>
    match argmaxIdx row rest with
    | none => some i
    | some j => if row.getD i 0 < row.getD j 0 then some j else some i

/-- Take the `m` best indices of `row` out of `pool`, best first. -/
def pickTop (row : List ℚ) : ℕ → List ℕ → List ℕ
  | 0, _ => []
  | m + 1, pool =>
    match argmaxIdx row pool with
    | none => []
    | some i => i :: pickTop row m (pool.erase i)

/-- The indices of the `m` highest scores of `row`, in descending score
order: the row of `pred = output.topk(maxk, 1, True, True)[1]` for this
sample. -/
def topIdx (row : List ℚ) (m : ℕ) : List ℕ :=
  pickTop row m (List.range row.length)

/-- Python `max(seq)`: `none` on an empty sequence (where Python raises
`ValueError`). -/
def pyMax : List ℕ → Option ℕ
  | [] => none
  | k :: rest => some (rest.foldl Nat.max k)

/-- The failures `accuracy` can raise.  `invalidInput` covers the torch
"selected index k out of range" error of `topk` and the `ZeroDivisionError`
of `100.0 / batch_size`; `shapeMismatch` covers the `expand_as` failure when
`output` and `target` disagree on the batch dimension. -/
inductive AccErr
  | invalidInput
  | shapeMismatch
deriving Repr, DecidableEq

/-- `accuracy(output, target, topk)` of train.py lines 136-152.

`out` is the score matrix (one row of class scores per sample), `tgt` the
true labels, `ks` the tuple `topk`.  For each requested `k` the result is
`100 * (number of (sample, rank) pairs with rank < k whose predicted index
equals the sample's label) / batch_size`. -/
def accuracy (out : List (List ℚ)) (tgt : List ℕ) (ks : List ℕ) :
    Except AccErr (List ℚ) :=
  match pyMax ks with
  | none => .error .invalidInput
  | some maxk =>
    if out.any (fun r => r.length < maxk) then .error .invalidInput
    else if out.length ≠ tgt.length then .error .shapeMismatch
    else if tgt.length = 0 then .error .invalidInput
    else
      let preds := out.map (fun r => topIdx r maxk)
      .ok (ks.map (fun k =>
        let correct_k : ℕ :=
          ((preds.zip tgt).map (fun p => (p.1.take k).count p.2)).sum
        100 * (correct_k : ℚ) / (tgt.length : ℚ)))

/-- The per-`k` raw correct counts of `accuracy` (the values of `correct_k`
before the `100 / batch_size` rescaling): a pure-ℕ companion used to
evaluate `accuracy` on concrete inputs. -/
def accCounts (out : List (List ℚ)) (tgt : List ℕ) (maxk : ℕ)
    (ks : List ℕ) : List ℕ :=
  ks.map (fun k =>
    (((out.map (fun r => topIdx r maxk)).zip tgt).map
      (fun p => (p.1.take k).count p.2)).sum)

/-! ## EpochRunner: `pass_epoch` (train.py lines 161-195)

The model, the loss function and the train-mode update block (lines
182-186, acting on the combined model/optimizer/scaler state) are the
collaborators of `pass_epoch`; they are passed in as functions.  `σ` is the
type of the mutable state the Train branch updates (model parameters,
optimizer momentum, scaler scale), `X` the type of an input batch tensor.
The model-mode flag set by `model.train()` / `model.eval()` is threaded
separately as a `Bool` (`true` = training mode).
-/

/-- The failures `pass_epoch` can raise: `emptyLoader` models the
`UnboundLocalError` on `i_batch` at the averaging line 192 when the loader
yielded no batches; `accFail` propagates a failure of the `accuracy` call
of line 179. -/
inductive PassErr
  | emptyLoader
  | accFail (e : AccErr)
deriving Repr, DecidableEq

/-- The per-epoch averages returned by `pass_epoch` (loss, top-1 accuracy,
top-5 accuracy). -/
structure Metrics where
  loss : ℚ
  top1 : ℚ
  top5 : ℚ
deriving Repr, DecidableEq

/-- The batch loop of `pass_epoch` (lines 168-190), with running sums
`l`, `a1`, `a5`, the model-mode flag `tm`, the train-side state `st` and
the list `log` of messages printed so far. -/
def passBatches {σ X : Type} (forward : σ → Bool → X → List (List ℚ))
    (lossFn : List (List ℚ) → List ℕ → ℚ)
    (trainStep : σ → X → List ℕ → σ) (mode : String) :
    List (X × List ℕ) → σ → Bool → ℚ → ℚ → ℚ → List String →
    Except PassErr (σ × Bool × ℚ × ℚ × ℚ × List String)
  | [], st, tm, l, a1, a5, log => .ok (st, tm, l, a1, a5, log)
  | (x, y) :: rest, st, tm, l, a1, a5, log =>
    -- lines 170-175: model.train() / model.eval(), or a printed complaint
    let tm' := if mode = "Train" then true
      else if mode = "Eval" then false else tm
    let log' := if mode = "Train" then log
      else if mode = "Eval" then log else log ++ ["error model mode!"]
    -- line 176: y_pred = model(x)
    let y_pred := forward st tm' x
    -- line 178: loss_batch = loss_fn(y_pred, y)
    let lossBatch := lossFn y_pred y
    -- line 179: loss_batch_acc_top = accuracy(y_pred, y, topk=(1, 5))
    match accuracy y_pred y [1, 5] with
    | .error e => .error (.accFail e)
    | .ok rs =>
      -- lines 181-186: the Train-mode update block
      let st' := if mode = "Train" then trainStep st x y else st
      -- lines 188-190: accumulate loss and accuracies
      passBatches forward lossFn trainStep mode rest st' tm'
        (l + lossBatch) (a1 + rs.getD 0 0) (a5 + rs.getD 1 0) log'

/-- `pass_epoch(model, loader, model_optimizer, loss_fn, scaler, device,
mode)` of train.py lines 161-195.  Returns the averaged metrics together
with the final train-side state, the final model-mode flag and the printed
messages.  On an empty loader the Python source reaches line 192 with
`i_batch` unbound and dies with an `UnboundLocalError`, modeled as
`.error .emptyLoader`. -/
def pass_epoch {σ X : Type} (forward : σ → Bool → X → List (List ℚ))
    (lossFn : List (List ℚ) → List ℕ → ℚ)
    (trainStep : σ → X → List ℕ → σ)
    (loader : List (X × List ℕ)) (mode : String) (st : σ) (tm : Bool) :
    Except PassErr (Metrics × σ × Bool × List String) :=
  match passBatches forward lossFn trainStep mode loader st tm 0 0 0 [] with
  | .error e => .error e
  | .ok (st', tm', l, a1, a5, log) =>
    match loader with
    | [] => .error .emptyLoader
    | _ :: _ =>
      let n : ℚ := (loader.length : ℚ)
      .ok ({ loss := l / n, top1 := a1 / n, top5 := a5 / n },
        st', tm', log)

/-! ## MixedPrecisionScaler and the Train-mode batch update (lines 181-186)

`torch.cuda.amp.GradScaler` semantics (per the torch documentation):
`scale(loss)` multiplies the loss by the current scale factor, so backward
produces `scale * g` for every raw gradient `g`; `step(optimizer)` unscales
the gradients in place and invokes the optimizer's update only when every
gradient is finite; `update()` halves the scale after a step that saw a
non-finite gradient and doubles it after `growth_interval = 2000`
consecutive clean steps.  A float is modeled as either a finite rational or
`nonfinite` (inf/nan), with non-finiteness propagating through arithmetic.
-/

/-- A floating-point value: finite (as an exact rational) or non-finite
(inf or nan). -/
inductive FP
  | fin (q : ℚ)
  | nonfinite
deriving Repr, DecidableEq

/-- Is the value finite? -/
def FP.isFinite : FP → Bool
  | fin _ => true
  | nonfinite => false

/-- Multiply by a finite scalar `c ≠ 0` (the loss scale). -/
def FP.mulQ (c : ℚ) : FP → FP
  | fin q => fin (c * q)
  | nonfinite => nonfinite

/-- Divide by a finite scalar `c ≠ 0` (the loss scale, for unscaling). -/
def FP.divQ (c : ℚ) : FP → FP
  | fin q => fin (q / c)
  | nonfinite => nonfinite

/-- `p - lr * g`: the SGD parameter update, non-finite whenever either
operand is. -/
def FP.subMul (p : FP) (lr : ℚ) (g : FP) : FP :=
  match p, g with
  | fin a, fin b => fin (a - lr * b)
  | _, _ => nonfinite

/-- The state of `torch.cuda.amp.GradScaler()`: the loss-scale factor and
the count of consecutive overflow-free steps. -/
structure GradScalerSt where
  scale : ℚ
  growthTracker : ℕ
deriving Repr, DecidableEq

/-- `GradScaler()` defaults: `init_scale = 2 ** 16`, tracker 0. -/
def initScaler : GradScalerSt := { scale := 65536, growthTracker := 0 }

/-- The SGD optimizer of line 220 restricted to what lines 181-186 touch:
learning rate, the referenced parameters and their `.grad` fields.
(The momentum and weight-decay terms of `optim.SGD` are omitted: they do
not affect whether `step` mutates the parameters.) -/
structure SGDSt where
  lr : ℚ
  params : List FP
  grads : List FP
deriving Repr, DecidableEq

/-- `optimizer.step()` for plain SGD: every parameter moves by
`-lr * grad`. -/
def sgdStep (o : SGDSt) : SGDSt :=
  { o with params := o.params.zipWith (fun p g => p.subMul o.lr g) o.grads }

/-- `scaler.step(model_optimizer)`: unscale the gradients in place, then
run the optimizer step only if all of them are finite.  Returns the new
optimizer state and the `found_inf` flag recorded for `update()`. -/
def scalerStep (sc : GradScalerSt) (o : SGDSt) : SGDSt × Bool :=
  let o1 := { o with grads := o.grads.map (FP.divQ sc.scale) }
  let foundInf := o1.grads.any (fun g => !g.isFinite)
  (if foundInf then o1 else sgdStep o1, foundInf)

/-- `scaler.update()`: halve the scale after an overflow step, double it
after `growth_interval = 2000` consecutive clean steps. -/
def scalerUpdate (sc : GradScalerSt) (foundInf : Bool) : GradScalerSt :=
  if foundInf then { scale := sc.scale / 2, growthTracker := 0 }
  else if sc.growthTracker + 1 = 2000 then
    { scale := sc.scale * 2, growthTracker := 0 }
  else { sc with growthTracker := sc.growthTracker + 1 }

/-- The Train-mode block of `pass_epoch`, lines 181-186, for one batch
whose raw (unscaled) loss gradients are `rawGrads`:

    model_optimizer.zero_grad()
    scaler.scale(loss_batch).backward()
    scaler.step(model_optimizer)
    scaler.update()
    model_optimizer.step()

Note the final `model_optimizer.step()` of line 186 is unconditional: it
runs after `scaler.update()` on whatever gradients are in place. -/
def trainBatchUpdate (sc : GradScalerSt) (o : SGDSt) (rawGrads : List FP) :
    GradScalerSt × SGDSt :=
  let o0 := { o with grads := o.grads.map (fun _ => FP.fin 0) }
  let o1 := { o0 with grads := rawGrads.map (FP.mulQ sc.scale) }
  let so := scalerStep sc o1
  let sc2 := scalerUpdate sc so.2
  let o3 := sgdStep so.1
  (sc2, o3)

/-! ## TrainingOrchestrator: `train` (train.py lines 213-296)

The loop state that the claims are about: the checkpoint writes (in
order), the early-stop counter `stop`, the `min_val_loss` variable and the
number of epochs executed.  The validation loss that the eval pass of
epoch `e` (0-based) returns is abstracted as `valLoss e`; losses coming out
of a real run are finite floats, modeled as ℚ.  The scheduler step, the
tensorboard writes and the matplotlib plots (lines 254-281) do not feed
back into this state and are omitted.
-/

/-- A checkpoint write: line 227 / line 295 write `checkpoint.pth.tar`
(`latest`), line 284 writes `checkpoint_NNNN.pth.tar` for the 1-based epoch
number (`numbered`). -/
inductive CkptEvent
  | latest
  | numbered (epoch : ℕ)
deriving Repr, DecidableEq

/-- The value of the Python variable `min_val_loss`: `math.inf` (its
initial value, line 231) or a finite float. -/
inductive PyFloat
  | inf
  | fin (q : ℚ)
deriving Repr, DecidableEq

/-- Python `x <= m` for a finite `x` against a possibly-infinite `m`. -/
def pyLe (x : ℚ) (m : PyFloat) : Bool :=
  match m with
  | .inf => true
  | .fin q => x ≤ q

/-- The mutable state of `train` that the claims observe. -/
structure TrainSt where
  events : List CkptEvent
  stop : ℕ
  minValLoss : PyFloat
  epochsRun : ℕ
  earlyStopped : Bool
deriving Repr, DecidableEq

/-- State right after line 231: the entry checkpoint of line 227 has been
written, `stop = 0`, `min_val_loss = math.inf`. -/
def trainInit : TrainSt :=
  { events := [.latest], stop := 0, minValLoss := .inf, epochsRun := 0,
    earlyStopped := false }

/-- The epoch loop, lines 232-294.  `e` is the 0-based epoch index, the
second argument the number of epochs still to run.

Line 282: `if val_loss <= min_val_loss:`.  Line 283 is
`val_loss = min_val_loss` — it overwrites the *local* `val_loss` (which is
not read again this iteration) and leaves `min_val_loss` untouched, so no
state change is recorded for it.  Line 284: save the numbered checkpoint.
Lines 291-294: `stop += 1` and break once `stop > 5`. -/
def trainLoop (valLoss : ℕ → ℚ) : ℕ → ℕ → TrainSt → TrainSt
  | _, 0, s => s
  | e, n + 1, s =>
    let vl := valLoss e
    let s1 : TrainSt := { s with epochsRun := s.epochsRun + 1 }
    if pyLe vl s1.minValLoss then
      trainLoop valLoss (e + 1) n
        { s1 with events := s1.events ++ [.numbered (e + 1)] }
    else
      let stop1 := s1.stop + 1
      if stop1 > 5 then { s1 with stop := stop1, earlyStopped := true }
      else trainLoop valLoss (e + 1) n { s1 with stop := stop1 }

/-- `train(args, model, train_loader, val_loader, writer, device)` of
lines 213-296, observed through `TrainSt`: entry checkpoint (line 227),
the epoch loop, and the unconditional final checkpoint (line 295). -/
def train (epochs : ℕ) (valLoss : ℕ → ℚ) : TrainSt :=
  let s1 := trainLoop valLoss 0 epochs trainInit
  { s1 with events := s1.events ++ [.latest] }

/-! ## Helper lemmas -/

theorem take_sublist_take {α : Type} (l : List α) :
    ∀ a b : ℕ, a ≤ b → List.Sublist (l.take a) (l.take b) := by
  induction l with
  | nil => intro a b _; simp
  | cons x xs ih =>
    intro a b hab
    cases a with
    | zero => simp
    | succ a' =>
      cases b with
      | zero => omega
      | succ b' =>
        rw [List.take_succ_cons, List.take_succ_cons]
        exact List.Sublist.cons₂ x (ih a' b' (by omega))

theorem sum_map_indicator {α : Type} (p : α → Bool) :
    ∀ l : List α, (l.map (fun x => if p x then 1 else 0)).sum = l.countP p := by
  intro l
  induction l with
  | nil => rfl
  | cons x xs ih =>
    by_cases hx : p x <;>
      simp [List.countP_cons, hx, ih, Nat.add_comm]

theorem mem_zip_left_of_length_eq {α β : Type} {out : List α} {tgt : List β}
    (hlen : out.length = tgt.length) {r : α} (hr : r ∈ out) :
    ∃ l, (r, l) ∈ out.zip tgt := by
  induction out generalizing tgt with
  | nil => cases hr
  | cons x xs ih =>
    cases tgt with
    | nil => simp at hlen
    | cons y ys =>
      rcases List.mem_cons.1 hr with h | h
      · exact ⟨y, by simp [h]⟩
      · obtain ⟨l, hl⟩ := ih (by simpa using hlen) h
        exact ⟨l, by simp [hl]⟩

theorem foldl_max_le {m : ℕ} : ∀ (l : List ℕ) (a : ℕ), l.foldl Nat.max a = m →
    a ≤ m ∧ ∀ k ∈ l, k ≤ m := by
  intro l
  induction l with
  | nil => intro a h; simp only [List.foldl_nil] at h; exact ⟨h.le, by simp⟩
  | cons x xs ih =>
    intro a h
    rw [List.foldl_cons] at h
    obtain ⟨h1, h2⟩ := ih (Nat.max a x) h
    refine ⟨le_trans (Nat.le_max_left a x) h1, ?_⟩
    intro k hk
    rcases List.mem_cons.1 hk with rfl | hk
    · exact le_trans (Nat.le_max_right a k) h1
    · exact h2 k hk

theorem nat_max_cases (a b : ℕ) : Nat.max a b = a ∨ Nat.max a b = b := by
  show max a b = a ∨ max a b = b
  rcases Nat.le_total a b with h | h
  · right; exact Nat.max_eq_right h
  · left; exact Nat.max_eq_left h

theorem foldl_max_mem : ∀ (l : List ℕ) (a : ℕ),
    l.foldl Nat.max a = a ∨ l.foldl Nat.max a ∈ l := by
  intro l
  induction l with
  | nil => intro a; left; rfl
  | cons x xs ih =>
    intro a
    rw [List.foldl_cons]
    rcases ih (Nat.max a x) with h | h
    · rcases nat_max_cases a x with hm | hm
      · left; rw [h, hm]
      · right; rw [h, hm]; exact List.mem_cons_self x xs
    · right; exact List.mem_cons_of_mem x h

theorem pyMax_le {ks : List ℕ} {m : ℕ} (h : pyMax ks = some m) :
    ∀ k ∈ ks, k ≤ m := by
  cases ks with
  | nil => simp [pyMax] at h
  | cons k rest =>
    simp only [pyMax, Option.some.injEq] at h
    obtain ⟨h1, h2⟩ := foldl_max_le rest k h
    intro j hj
    rcases List.mem_cons.1 hj with rfl | hj
    · exact h1
    · exact h2 j hj

theorem pyMax_mem {ks : List ℕ} {m : ℕ} (h : pyMax ks = some m) : m ∈ ks := by
  cases ks with
  | nil => simp [pyMax] at h
  | cons k rest =>
    simp only [pyMax, Option.some.injEq] at h
    rcases foldl_max_mem rest k with h2 | h2
    · rw [h2] at h; exact h ▸ List.mem_cons_self k rest
    · exact List.mem_cons_of_mem k (h ▸ h2)

theorem argmaxIdx_mem {row : List ℚ} : ∀ {pool : List ℕ} {i : ℕ},
    argmaxIdx row pool = some i → i ∈ pool := by
  intro pool
  induction pool with
  | nil => intro i h; simp [argmaxIdx] at h
  | cons x xs ih =>
    intro i h
    simp only [argmaxIdx] at h
    split at h
    · cases h; exact List.mem_cons_self x xs
    · next j hj =>
      split at h
      · cases h; exact List.mem_cons_of_mem x (ih hj)
      · cases h; exact List.mem_cons_self x xs

theorem argmaxIdx_strictmax {row : List ℚ} : ∀ {pool : List ℕ} {i : ℕ},
    i ∈ pool → (∀ j ∈ pool, j ≠ i → row.getD j 0 < row.getD i 0) →
    argmaxIdx row pool = some i := by
  intro pool
  induction pool with
  | nil => intro i h _; cases h
  | cons x xs ih =>
    intro i hi hmax
    simp only [argmaxIdx]
    split
    · next hnone =>
      rcases List.mem_cons.1 hi with rfl | hi
      · rfl
      · rw [ih hi (fun j hj hji => hmax j (List.mem_cons_of_mem x hj) hji)]
          at hnone
        cases hnone
    · next j hj =>
      have hjmem : j ∈ xs := argmaxIdx_mem hj
      rcases List.mem_cons.1 hi with rfl | hi
      · by_cases hji : j = i
        · subst hji
          rw [if_neg (lt_irrefl _)]
        · rw [if_neg (not_lt.2 (le_of_lt
            (hmax j (List.mem_cons_of_mem i hjmem) hji)))]
      · rw [ih hi (fun j hj hji => hmax j (List.mem_cons_of_mem x hj) hji)]
          at hj
        cases hj
        by_cases hxi : x = i
        · subst hxi
          rw [if_neg (lt_irrefl _)]
        · rw [if_pos (hmax x (List.mem_cons_self x xs) hxi)]

theorem pickTop_subset {row : List ℚ} : ∀ {m : ℕ} {pool : List ℕ} {x : ℕ},
    x ∈ pickTop row m pool → x ∈ pool := by
  intro m
  induction m with
  | zero => intro pool x h; simp [pickTop] at h
  | succ m ih =>
    intro pool x h
    simp only [pickTop] at h
    split at h
    · cases h
    · next i hi =>
      rcases List.mem_cons.1 h with rfl | h
      · exact argmaxIdx_mem hi
      · exact List.erase_subset _ _ (ih h)

theorem pickTop_nodup {row : List ℚ} : ∀ {m : ℕ} {pool : List ℕ},
    pool.Nodup → (pickTop row m pool).Nodup := by
  intro m
  induction m with
  | zero => intro pool _; simp [pickTop]
  | succ m ih =>
    intro pool hpool
    simp only [pickTop]
    split
    · simp
    · next i hi =>
      refine List.nodup_cons.2 ⟨?_, ih (hpool.erase i)⟩
      intro hmem
      exact (hpool.mem_erase_iff.1 (pickTop_subset hmem)).1 rfl

theorem pickTop_take {row : List ℚ} : ∀ {k m : ℕ} {pool : List ℕ}, k ≤ m →
    (pickTop row m pool).take k = pickTop row k pool := by
  intro k
  induction k with
  | zero => intro m pool _; simp [pickTop]
  | succ k ih =>
    intro m pool hkm
    cases m with
    | zero => omega
    | succ m =>
      simp only [pickTop]
      split
    -- argmax none: both sides are []
      · simp
      · next i hi =>
        rw [List.take_succ_cons]
        exact congrArg (i :: ·) (ih (Nat.succ_le_succ_iff.1 hkm))

theorem topIdx_nodup (row : List ℚ) (m : ℕ) : (topIdx row m).Nodup :=
  pickTop_nodup (List.nodup_range _)

theorem topIdx_take {row : List ℚ} {k m : ℕ} (h : k ≤ m) :
    (topIdx row m).take k = topIdx row k :=
  pickTop_take h

/-- `accuracy` in terms of its pure-ℕ companion `accCounts`, on the
success path. -/
theorem accuracy_ok_eq (out : List (List ℚ)) (tgt : List ℕ) (ks : List ℕ)
    (maxk : ℕ) (h1 : pyMax ks = some maxk)
    (h2 : out.any (fun r => r.length < maxk) = false)
    (h3 : out.length = tgt.length) (h4 : tgt.length ≠ 0) :
    accuracy out tgt ks = .ok ((accCounts out tgt maxk ks).map
      (fun c : ℕ => 100 * (c : ℚ) / (tgt.length : ℚ))) := by
  simp only [accuracy, h1, h2, Bool.false_eq_true, if_false, h3, ne_eq,
    not_true_eq_false, if_true, h4, accCounts, List.map_map]
  rfl

/-- Inversion: whatever `accuracy` successfully returns has the shape
computed on the success path, and all input checks passed. -/
theorem accuracy_ok_inv {out : List (List ℚ)} {tgt : List ℕ}
    {ks : List ℕ} {rs : List ℚ} (h : accuracy out tgt ks = .ok rs) :
    ∃ maxk, pyMax ks = some maxk ∧
      out.any (fun r => r.length < maxk) = false ∧
      out.length = tgt.length ∧ tgt.length ≠ 0 ∧
      rs = ks.map (fun k =>
        100 * (((((out.map (fun r => topIdx r maxk)).zip tgt).map
          (fun p => (p.1.take k).count p.2)).sum : ℕ) : ℚ) /
          (tgt.length : ℚ)) := by
  rcases hp : pyMax ks with _ | maxk
  · simp [accuracy, hp] at h
  · simp only [accuracy, hp] at h
    by_cases h2 : (out.any fun r => decide (r.length < maxk)) = true
    · rw [if_pos h2] at h; simp at h
    · rw [if_neg h2] at h
      by_cases h3 : out.length ≠ tgt.length
      · rw [if_pos h3] at h; simp at h
      · rw [if_neg h3] at h
        by_cases h4 : tgt.length = 0
        · rw [if_pos h4] at h; simp at h
        · rw [if_neg h4] at h
          refine ⟨maxk, rfl, by simpa using h2, not_not.1 h3, h4, ?_⟩
          exact (Except.ok.inj h).symm

/-- The flattened `correct[:k]` count of `accuracy` equals the number of
samples whose label is among their top-`k` indices (the top-`k` indices are
distinct, so each sample contributes at most one match). -/
theorem sum_count_take_eq (k maxk : ℕ) (hk : k ≤ maxk) :
    ∀ (out : List (List ℚ)) (tgt : List ℕ),
    (((out.map (fun r => topIdx r maxk)).zip tgt).map
      (fun p => (p.1.take k).count p.2)).sum
      = (out.zip tgt).countP (fun p => decide (p.2 ∈ topIdx p.1 k)) := by
  intro out
  induction out with
  | nil => intro tgt; rfl
  | cons r rs ih =>
    intro tgt
    cases tgt with
    | nil => rfl
    | cons t ts =>
      simp only [List.map_cons, List.zip_cons_cons, List.sum_cons,
        List.countP_cons, ih ts]
      rw [topIdx_take hk]
      by_cases hmem : t ∈ topIdx r k
      · rw [List.count_eq_one_of_mem (topIdx_nodup _ _) hmem]
        have hd : decide (t ∈ topIdx r k) = true := by simpa using hmem
        rw [hd, if_pos rfl]
        omega
      · rw [List.count_eq_zero.2 hmem]
        simp [hmem]

/-- C4: on every successful call, `accuracy` returns, for each requested
`k`, `100 *` (number of samples whose true label is among that sample's
`k` highest-scored class indices) `/` batch size; and when every sample's
true label is the strictly highest-scored class, top-1 is exactly 100. -/
theorem accuracy_topk_formula :
    (∀ (out : List (List ℚ)) (tgt ks : List ℕ) (rs : List ℚ),
      accuracy out tgt ks = .ok rs →
      rs = ks.map (fun k =>
        100 * (((out.zip tgt).countP
          (fun p => decide (p.2 ∈ topIdx p.1 k)) : ℕ) : ℚ) /
          (tgt.length : ℚ)))
    ∧ (∀ (out : List (List ℚ)) (tgt : List ℕ),
        out.length = tgt.length → tgt ≠ [] →
        (∀ p ∈ out.zip tgt, p.2 < p.1.length ∧
          ∀ j < p.1.length, j ≠ p.2 → p.1.getD j 0 < p.1.getD p.2 0) →
        accuracy out tgt [1] = .ok [100]) := by
  constructor
  · intro out tgt ks rs h
    obtain ⟨maxk, hp, _, _, _, hrs⟩ := accuracy_ok_inv h
    subst hrs
    apply List.map_congr_left
    intro k hk
    rw [sum_count_take_eq k maxk (pyMax_le hp k hk)]
  · intro out tgt hlen hne hstrict
    have h4 : tgt.length ≠ 0 := by
      intro h0; exact hne (List.length_eq_zero.1 h0)
    have h2 : out.any (fun r => r.length < 1) = false := by
      apply List.any_eq_false.2
      intro r hr
      obtain ⟨lab, hmem⟩ := mem_zip_left_of_length_eq hlen hr
      have h5 : lab < r.length := (hstrict _ hmem).1
      simp only [decide_eq_true_eq]
      omega
    have htop : ∀ p ∈ out.zip tgt, topIdx p.1 1 = [p.2] := by
      intro p hp
      obtain ⟨hlt, hstr⟩ := hstrict p hp
      simp only [topIdx, pickTop]
      rw [argmaxIdx_strictmax (List.mem_range.2 hlt)
        (fun j hj hne2 => hstr j (List.mem_range.1 hj) hne2)]
    rw [accuracy_ok_eq out tgt [1] 1 rfl h2 hlen h4]
    have hcountP : (out.zip tgt).countP
        (fun p => decide (p.2 ∈ topIdx p.1 1)) = (out.zip tgt).length := by
      apply List.countP_eq_length.2
      intro p hp
      simp [htop p hp]
    have hzlen : (out.zip tgt).length = tgt.length := by
      rw [List.length_zip, hlen, Nat.min_self]
    have hcounts : accCounts out tgt 1 [1] = [tgt.length] := by
      simp only [accCounts, List.map_cons, List.map_nil]
      rw [sum_count_take_eq 1 1 le_rfl, hcountP, hzlen]
    rw [hcounts]
    have hN : (tgt.length : ℚ) ≠ 0 := Nat.cast_ne_zero.2 h4
    simp only [List.map_cons, List.map_nil]
    rw [mul_div_assoc, div_self hN, mul_one]

/-- C4 witness: a concrete batch (one sample, two classes, label ranked
first) instantiating both halves of `accuracy_topk_formula`. -/
theorem accuracy_topk_formula_witness :
    accuracy [[(2 : ℚ), 1]] [0] [1] = .ok [100] ∧
    ([100] : List ℚ) = [1].map (fun k =>
      100 * ((([[(2 : ℚ), 1]].zip [0]).countP
        (fun p => decide (p.2 ∈ topIdx p.1 k)) : ℕ) : ℚ) /
        (([0] : List ℕ).length : ℚ)) := by
  have hok : accuracy [[(2 : ℚ), 1]] [0] [1] = .ok [100] :=
    accuracy_topk_formula.2 [[(2 : ℚ), 1]] [0] rfl (by decide) (by decide)
  exact ⟨hok, accuracy_topk_formula.1 [[(2 : ℚ), 1]] [0] [1] [100] hok⟩

/-- C5: `accuracy` fails with the invalid-input error whenever a requested
`k` exceeds a row's class count or the batch is empty (shapes agreeing, as
they do for real tensors). -/
theorem accuracy_invalid_input (out : List (List ℚ)) (tgt ks : List ℕ)
    (hlen : out.length = tgt.length)
    (h : (∃ k ∈ ks, ∃ r ∈ out, r.length < k) ∨ tgt.length = 0) :
    accuracy out tgt ks = .error .invalidInput := by
  rcases hp : pyMax ks with _ | maxk
  · simp [accuracy, hp]
  · simp only [accuracy, hp]
    rcases h with ⟨k, hk, r, hr, hrk⟩ | hN
    · have hany : (out.any fun r => decide (r.length < maxk)) = true := by
        apply List.any_eq_true.2
        exact ⟨r, hr, by
          simp only [decide_eq_true_eq]
          exact lt_of_lt_of_le hrk (pyMax_le hp k hk)⟩
      rw [if_pos hany]
    · by_cases hany : (out.any fun r => decide (r.length < maxk)) = true
      · rw [if_pos hany]
      · rw [if_neg hany, if_neg (by simp [hlen]), if_pos hN]

/-- C5 witness: requesting top-3 on two classes fails, and an empty batch
fails. -/
theorem accuracy_invalid_input_witness :
    accuracy [[(1 : ℚ), 2]] [0] [3] = .error .invalidInput ∧
    accuracy ([] : List (List ℚ)) [] [1] = .error .invalidInput := by
  constructor
  · exact accuracy_invalid_input [[(1 : ℚ), 2]] [0] [3] rfl
      (Or.inl ⟨3, by simp, [(1 : ℚ), 2], by simp, by norm_num⟩)
  · exact accuracy_invalid_input [] [] [1] rfl (Or.inr rfl)

/-- Concrete evaluation used by several witnesses: a one-sample batch with
five classes whose label is ranked first scores 100 for top-1 and top-5. -/
theorem accuracy_five_classes :
    accuracy [[(5 : ℚ), 4, 3, 2, 1]] [0] [1, 5] = .ok [100, 100] := by
  rw [accuracy_ok_eq [[(5 : ℚ), 4, 3, 2, 1]] [0] [1, 5] 5 rfl rfl rfl
    (by decide)]
  have hc : accCounts [[(5 : ℚ), 4, 3, 2, 1]] [0] 5 [1, 5] = [1, 1] := by
    decide
  rw [hc]
  norm_num

/-- C8: each result of a successful `accuracy(..., topk=(1, 5))` call lies
in [0, 100], and the top-5 result is at least the top-1 result. -/
theorem accuracy_bounds_top5_ge_top1 (out : List (List ℚ)) (tgt : List ℕ)
    (rs : List ℚ) (h : accuracy out tgt [1, 5] = .ok rs) :
    ∃ a1 a5, rs = [a1, a5] ∧ 0 ≤ a1 ∧ a1 ≤ 100 ∧ 0 ≤ a5 ∧ a5 ≤ 100 ∧
      a1 ≤ a5 := by
  obtain ⟨maxk, hp, h2, h3, h4, hrs⟩ := accuracy_ok_inv h
  have hmaxk : maxk = 5 := by
    have h5 : pyMax [1, 5] = some 5 := rfl
    rw [h5] at hp
    exact (Option.some.inj hp).symm
  subst hmaxk
  simp only [List.map_cons, List.map_nil] at hrs
  have hS15 :
      (((out.map (fun r => topIdx r 5)).zip tgt).map
        (fun p => (p.1.take 1).count p.2)).sum ≤
      (((out.map (fun r => topIdx r 5)).zip tgt).map
        (fun p => (p.1.take 5).count p.2)).sum := by
    apply List.sum_le_sum
    intro p _
    exact (take_sublist_take p.1 1 5 (by omega)).count_le p.2
  have hS5N :
      (((out.map (fun r => topIdx r 5)).zip tgt).map
        (fun p => (p.1.take 5).count p.2)).sum ≤ tgt.length := by
    have hone : ∀ x ∈ ((out.map (fun r => topIdx r 5)).zip tgt).map
        (fun p => (p.1.take 5).count p.2), x ≤ 1 := by
      intro x hx
      obtain ⟨p, hpz, hpx⟩ := List.mem_map.1 hx
      obtain ⟨a, b⟩ := p
      obtain ⟨r, _, hr⟩ :=
        List.mem_map.1 (List.of_mem_zip hpz).1
      have hnd : (a.take 5).Nodup :=
        List.Nodup.sublist (List.take_sublist 5 a) (hr ▸ topIdx_nodup r 5)
      exact hpx ▸ List.nodup_iff_count_le_one.1 hnd b
    have hb := List.sum_le_card_nsmul
      (((out.map (fun r => topIdx r 5)).zip tgt).map
        (fun p => (p.1.take 5).count p.2)) 1 hone
    rw [List.length_map, List.length_zip, List.length_map, h3,
      Nat.min_self] at hb
    simpa using hb
  have hNpos : (0 : ℚ) < (tgt.length : ℚ) := by
    exact_mod_cast Nat.pos_of_ne_zero h4
  refine ⟨_, _, hrs, ?_, ?_, ?_, ?_, ?_⟩
  · positivity
  · rw [div_le_iff₀ hNpos]
    exact mul_le_mul_of_nonneg_left
      (Nat.cast_le.2 (le_trans hS15 hS5N)) (by norm_num)
  · positivity
  · rw [div_le_iff₀ hNpos]
    exact mul_le_mul_of_nonneg_left (Nat.cast_le.2 hS5N) (by norm_num)
  · rw [div_le_div_iff_of_pos_right hNpos]
    exact mul_le_mul_of_nonneg_left (Nat.cast_le.2 hS15) (by norm_num)

/-- C8 witness: a concrete five-class batch on which the bounds and the
top5-vs-top1 comparison are instantiated. -/
theorem accuracy_bounds_witness :
    ∃ a1 a5, ([(100 : ℚ), 100] : List ℚ) = [a1, a5] ∧ 0 ≤ a1 ∧
      a1 ≤ 100 ∧ 0 ≤ a5 ∧ a5 ≤ 100 ∧ a1 ≤ a5 :=
  accuracy_bounds_top5_ge_top1 [[(5 : ℚ), 4, 3, 2, 1]] [0]
    [100, 100] accuracy_five_classes

/-! ## EpochRunner lemmas and claims -/

/-- On any mode other than Train, the batch loop never invokes the
train-mode update block, so the train-side state passes through. -/
theorem passBatches_not_train {σ X : Type}
    (f : σ → Bool → X → List (List ℚ))
    (lf : List (List ℚ) → List ℕ → ℚ) (ts : σ → X → List ℕ → σ)
    (mode : String) (hmode : mode ≠ "Train") :
    ∀ (bs : List (X × List ℕ)) (st : σ) (tm : Bool) (l a1 a5 : ℚ)
      (log : List String) (res : σ × Bool × ℚ × ℚ × ℚ × List String),
    passBatches f lf ts mode bs st tm l a1 a5 log = .ok res →
    res.1 = st := by
  intro bs
  induction bs with
  | nil =>
    intro st tm l a1 a5 log res h
    simp only [passBatches] at h
    cases h
    rfl
  | cons b rest ih =>
    obtain ⟨x, y⟩ := b
    intro st tm l a1 a5 log res h
    simp only [passBatches] at h
    split at h
    · cases h
    · rw [if_neg hmode] at h
      exact ih st _ _ _ _ _ res h

/-- On a mode other than Train and Eval, the batch loop leaves the
model-mode flag alone and prints one complaint per batch. -/
theorem passBatches_badmode {σ X : Type}
    (f : σ → Bool → X → List (List ℚ))
    (lf : List (List ℚ) → List ℕ → ℚ) (ts : σ → X → List ℕ → σ)
    (mode : String) (hm1 : mode ≠ "Train") (hm2 : mode ≠ "Eval") :
    ∀ (bs : List (X × List ℕ)) (st : σ) (tm : Bool) (l a1 a5 : ℚ)
      (log : List String) (res : σ × Bool × ℚ × ℚ × ℚ × List String),
    passBatches f lf ts mode bs st tm l a1 a5 log = .ok res →
    res.2.1 = tm ∧
      res.2.2.2.2.2 = log ++ bs.map (fun _ => "error model mode!") := by
  intro bs
  induction bs with
  | nil =>
    intro st tm l a1 a5 log res h
    simp only [passBatches] at h
    cases h
    exact ⟨rfl, by simp⟩
  | cons b rest ih =>
    obtain ⟨x, y⟩ := b
    intro st tm l a1 a5 log res h
    simp only [passBatches] at h
    rw [if_neg hm1, if_neg hm2, if_neg hm1, if_neg hm2] at h
    split at h
    · cases h
    · rw [if_neg hm1] at h
      obtain ⟨htm, hlog⟩ := ih st tm _ _ _ _ res h
      refine ⟨htm, ?_⟩
      rw [hlog, List.map_cons, List.append_assoc]
      rfl

/-- One step of the batch loop in Eval mode, with the mode tests already
evaluated: the flag is forced to `false`, nothing is printed, and the
train-side state passes through. -/
theorem passBatches_eval_cons {σ X : Type}
    (f : σ → Bool → X → List (List ℚ))
    (lf : List (List ℚ) → List ℕ → ℚ) (ts : σ → X → List ℕ → σ)
    (x : X) (y : List ℕ) (rest : List (X × List ℕ)) (st : σ) (tm : Bool)
    (l a1 a5 : ℚ) (log : List String) :
    passBatches f lf ts "Eval" ((x, y) :: rest) st tm l a1 a5 log =
      match accuracy (f st false x) y [1, 5] with
      | .error e => .error (.accFail e)
      | .ok rs => passBatches f lf ts "Eval" rest st false
          (l + lf (f st false x) y) (a1 + rs.getD 0 0)
          (a5 + rs.getD 1 0) log := rfl

/-- In Eval mode the model-mode flag is forced to `false` before it is
ever read, so the initial flag value cannot influence a non-empty pass. -/
theorem passBatches_eval_tm {σ X : Type}
    (f : σ → Bool → X → List (List ℚ))
    (lf : List (List ℚ) → List ℕ → ℚ) (ts : σ → X → List ℕ → σ)
    (b : X × List ℕ) (bs : List (X × List ℕ)) (st : σ)
    (tm1 tm2 : Bool) (l a1 a5 : ℚ) (log : List String) :
    passBatches f lf ts "Eval" (b :: bs) st tm1 l a1 a5 log =
    passBatches f lf ts "Eval" (b :: bs) st tm2 l a1 a5 log := by
  obtain ⟨x, y⟩ := b
  rw [passBatches_eval_cons, passBatches_eval_cons]

/-- Two Eval passes from the same train-side state agree, whatever
model-mode flags they start from. -/
theorem pass_epoch_eval_runs_eq {σ X : Type}
    (f : σ → Bool → X → List (List ℚ))
    (lf : List (List ℚ) → List ℕ → ℚ) (ts : σ → X → List ℕ → σ)
    (loader : List (X × List ℕ)) (st : σ) (tm1 tm2 : Bool) :
    pass_epoch f lf ts loader "Eval" st tm1 =
    pass_epoch f lf ts loader "Eval" st tm2 := by
  cases loader with
  | nil => rfl
  | cons b bs =>
    simp only [pass_epoch]
    rw [passBatches_eval_tm f lf ts b bs st tm1 tm2]

/-- C6: on a loader that yields zero batches, `pass_epoch` fails with the
empty-loader error (the Python source dies at the averaging line), for
every mode and every state. -/
theorem pass_epoch_empty_loader {σ X : Type}
    (f : σ → Bool → X → List (List ℚ))
    (lf : List (List ℚ) → List ℕ → ℚ) (ts : σ → X → List ℕ → σ)
    (mode : String) (st : σ) (tm : Bool) :
    pass_epoch f lf ts ([] : List (X × List ℕ)) mode st tm =
      .error .emptyLoader := rfl

/-- C9: an Eval pass leaves the train-side state (model parameters,
optimizer and scaler state) untouched, and re-running it immediately from
the state and flag it returned reproduces the same metrics. -/
theorem pass_epoch_eval_no_mutation {σ X : Type}
    (f : σ → Bool → X → List (List ℚ))
    (lf : List (List ℚ) → List ℕ → ℚ) (ts : σ → X → List ℕ → σ)
    (loader : List (X × List ℕ)) (st : σ) (tm : Bool) (m : Metrics)
    (st2 : σ) (tm2 : Bool) (log : List String)
    (h : pass_epoch f lf ts loader "Eval" st tm = .ok (m, st2, tm2, log)) :
    st2 = st ∧
    pass_epoch f lf ts loader "Eval" st2 tm2 = .ok (m, st2, tm2, log) := by
  have hst : st2 = st := by
    have h' := h
    simp only [pass_epoch] at h'
    split at h'
    · cases h'
    · next res hres =>
      cases loader with
      | nil => cases h'
      | cons b bs =>
        simp only [Except.ok.injEq, Prod.mk.injEq] at h'
        obtain ⟨-, hst1, -, -⟩ := h'
        rw [← hst1]
        exact passBatches_not_train f lf ts "Eval" (by decide)
          (b :: bs) st tm 0 0 0 [] _ hres
  refine ⟨hst, ?_⟩
  conv_lhs => rw [hst]
  rw [pass_epoch_eval_runs_eq f lf ts loader st tm2 tm]
  exact h

/-- Concrete one-batch Eval run used as the C9 witness input: a constant
deterministic model over five classes, zero loss, and a train step that
would change the state if it ever ran. -/
theorem pass_epoch_eval_concrete :
    pass_epoch (fun (_ : ℚ) (_ : Bool) (_ : Unit) => [[(5 : ℚ), 4, 3, 2, 1]])
      (fun _ _ => 0) (fun s _ _ => s + 1) [((), [0])] "Eval" 0 true =
      .ok ({ loss := 0, top1 := 100, top5 := 100 }, 0, false, []) := by
  have hpb : passBatches
      (fun (_ : ℚ) (_ : Bool) (_ : Unit) => [[(5 : ℚ), 4, 3, 2, 1]])
      (fun _ _ => 0) (fun s _ _ => s + 1) "Eval" [((), [0])] 0 true
      0 0 0 [] = .ok (0, false, 0 + 0, 0 + 100, 0 + 100, []) := by
    rw [passBatches_eval_cons, accuracy_five_classes]
    rfl
  simp only [pass_epoch, hpb]
  norm_num

/-- C9 witness: `pass_epoch_eval_no_mutation` applied to the concrete
one-batch Eval run. -/
theorem pass_epoch_eval_no_mutation_witness :
    (0 : ℚ) = 0 ∧
    pass_epoch (fun (_ : ℚ) (_ : Bool) (_ : Unit) => [[(5 : ℚ), 4, 3, 2, 1]])
      (fun _ _ => 0) (fun s _ _ => s + 1) [((), [0])] "Eval" 0 false =
      .ok ({ loss := 0, top1 := 100, top5 := 100 }, 0, false, []) :=
  pass_epoch_eval_no_mutation _ _ _ _ _ _ _ _ _ _ pass_epoch_eval_concrete

/-- One step of the batch loop with the unrecognized mode `"Test"`, mode
tests already evaluated: the message is printed, the flag and the
train-side state pass through. -/
theorem passBatches_test_cons {σ X : Type}
    (f : σ → Bool → X → List (List ℚ))
    (lf : List (List ℚ) → List ℕ → ℚ) (ts : σ → X → List ℕ → σ)
    (x : X) (y : List ℕ) (rest : List (X × List ℕ)) (st : σ) (tm : Bool)
    (l a1 a5 : ℚ) (log : List String) :
    passBatches f lf ts "Test" ((x, y) :: rest) st tm l a1 a5 log =
      match accuracy (f st tm x) y [1, 5] with
      | .error e => .error (.accFail e)
      | .ok rs => passBatches f lf ts "Test" rest st tm
          (l + lf (f st tm x) y) (a1 + rs.getD 0 0)
          (a5 + rs.getD 1 0) (log ++ ["error model mode!"]) := rfl

/-- Concrete one-batch run with the unrecognized mode `"Test"`: it
completes normally, printing one complaint. -/
theorem pass_epoch_test_concrete :
    pass_epoch (fun (_ : ℚ) (_ : Bool) (_ : Unit) => [[(5 : ℚ), 4, 3, 2, 1]])
      (fun _ _ => 0) (fun s _ _ => s + 1) [((), [0])] "Test" 0 true =
      .ok ({ loss := 0, top1 := 100, top5 := 100 }, 0, true,
        ["error model mode!"]) := by
  have hpb : passBatches
      (fun (_ : ℚ) (_ : Bool) (_ : Unit) => [[(5 : ℚ), 4, 3, 2, 1]])
      (fun _ _ => 0) (fun s _ _ => s + 1) "Test" [((), [0])] 0 true
      0 0 0 [] =
      .ok (0, true, 0 + 0, 0 + 100, 0 + 100, ["error model mode!"]) := by
    rw [passBatches_test_cons, accuracy_five_classes]
    rfl
  simp only [pass_epoch, hpb]
  norm_num

/-- C7 counterexample: a call with mode `"Test"` does not fail at all — it
prints `error model mode!` and returns ordinary metrics. -/
theorem pass_epoch_badmode_returns_ok :
    pass_epoch (fun (_ : ℚ) (_ : Bool) (_ : Unit) => [[(5 : ℚ), 4, 3, 2, 1]])
      (fun _ _ => 0) (fun s _ _ => s + 1) [((), [0])] "Test" 0 true =
      .ok ({ loss := 0, top1 := 100, top5 := 100 }, 0, true,
        ["error model mode!"]) :=
  pass_epoch_test_concrete

/-- C7 (amended): with a mode other than Train/Eval, `pass_epoch` does not
abort; it prints `error model mode!` once per batch and completes the pass
without touching the train-side state or the model-mode flag. -/
theorem pass_epoch_badmode_continues {σ X : Type}
    (f : σ → Bool → X → List (List ℚ))
    (lf : List (List ℚ) → List ℕ → ℚ) (ts : σ → X → List ℕ → σ)
    (loader : List (X × List ℕ)) (mode : String) (st : σ) (tm : Bool)
    (m : Metrics) (st2 : σ) (tm2 : Bool) (log : List String)
    (hm1 : mode ≠ "Train") (hm2 : mode ≠ "Eval")
    (h : pass_epoch f lf ts loader mode st tm = .ok (m, st2, tm2, log)) :
    st2 = st ∧ tm2 = tm ∧
    log = loader.map (fun _ => "error model mode!") := by
  simp only [pass_epoch] at h
  split at h
  · cases h
  · next res hres =>
    cases loader with
    | nil => cases h
    | cons b bs =>
      simp only [Except.ok.injEq, Prod.mk.injEq] at h
      obtain ⟨-, hst1, htm1, hlog1⟩ := h
      have hstate := passBatches_not_train f lf ts mode hm1
        (b :: bs) st tm 0 0 0 [] _ hres
      obtain ⟨htm, hlog⟩ := passBatches_badmode f lf ts mode hm1 hm2
        (b :: bs) st tm 0 0 0 [] _ hres
      refine ⟨?_, ?_, ?_⟩
      · rw [← hst1]; exact hstate
      · rw [← htm1]; exact htm
      · rw [← hlog1]; simpa using hlog

/-- C7 witness: the amended statement instantiated on the concrete
`"Test"`-mode run. -/
theorem pass_epoch_badmode_continues_witness :
    (0 : ℚ) = 0 ∧ (true = true) ∧
    (["error model mode!"] =
      ([((), [0])] : List (Unit × List ℕ)).map
        (fun _ => "error model mode!")) :=
  pass_epoch_badmode_continues _ _ _ _ "Test" _ _ _ _ _ _
    (by decide) (by decide) pass_epoch_test_concrete

/-! ## MixedPrecisionScaler claim (C3) -/

/-- C3 (code-bug evidence): on a batch with a non-finite raw gradient,
`scaler.step` itself skips the parameter update (first conjunct), and the
scale factor is halved (third conjunct) — but the unconditional
`model_optimizer.step()` of line 186 still runs afterwards, so the
parameter is no longer the bit pattern it started with (second and fourth
conjuncts): the full per-batch block does mutate the parameters. -/
theorem trainBatchUpdate_nonfinite_mutates :
    (scalerStep initScaler
      { lr := 1, params := [.fin 0], grads := [.nonfinite] }).1.params =
      [FP.fin 0] ∧
    (trainBatchUpdate initScaler
      { lr := 1, params := [.fin 0], grads := [.fin 0] }
      [.nonfinite]).2.params = [FP.nonfinite] ∧
    (trainBatchUpdate initScaler
      { lr := 1, params := [.fin 0], grads := [.fin 0] }
      [.nonfinite]).1.scale = 32768 ∧
    FP.nonfinite ≠ FP.fin 0 := by
  refine ⟨by decide, by decide, ?_, by decide⟩
  have h : (trainBatchUpdate initScaler
      { lr := 1, params := [.fin 0], grads := [.fin 0] }
      [.nonfinite]).1.scale = (65536 : ℚ) / 2 := rfl
  rw [h]
  norm_num

/-! ## TrainingOrchestrator claims (C1, C2, C10) -/

/-- The validation-loss sequence of the spec scenario: 1.0, 1.2, 1.3. -/
def valLossScenario : ℕ → ℚ := fun e => [1, 6 / 5, 13 / 10].getD e 0

/-- C1 (code-bug evidence): with max_epochs = 3 and validation losses
[1.0, 1.2, 1.3], the loop saves a numbered checkpoint at *every* epoch and
the early-stop counter stays 0, because line 283 (`val_loss =
min_val_loss`) assigns in the wrong direction and `min_val_loss` remains
`math.inf` — not only at epoch 1 with a final counter of 2. -/
theorem train_reversed_best_tracking :
    (train 3 valLossScenario).events =
      [.latest, .numbered 1, .numbered 2, .numbered 3, .latest] ∧
    (train 3 valLossScenario).stop = 0 ∧
    (train 3 valLossScenario).minValLoss = .inf := by
  refine ⟨by decide, by decide, by decide⟩

/-- As long as `min_val_loss` holds `math.inf`, every epoch takes the
"improving" branch: the counter, the early-stop flag and the infinity are
all preserved, and the loop runs all remaining epochs. -/
theorem trainLoop_min_inf (v : ℕ → ℚ) :
    ∀ (n e : ℕ) (s : TrainSt), s.minValLoss = .inf →
    (trainLoop v e n s).stop = s.stop ∧
    (trainLoop v e n s).earlyStopped = s.earlyStopped ∧
    (trainLoop v e n s).epochsRun = s.epochsRun + n ∧
    (trainLoop v e n s).minValLoss = .inf := by
  intro n
  induction n with
  | zero => intro e s hs; exact ⟨rfl, rfl, rfl, hs⟩
  | succ n ih =>
    intro e s hs
    simp only [trainLoop]
    have hc : pyLe (v e)
        ({ events := s.events, stop := s.stop,
           minValLoss := s.minValLoss, epochsRun := s.epochsRun + 1,
           earlyStopped := s.earlyStopped } : TrainSt).minValLoss =
        true := by
      show pyLe (v e) s.minValLoss = true
      rw [hs]
      rfl
    rw [if_pos hc]
    obtain ⟨h1, h2, h3, h4⟩ := ih (e + 1)
      { events := s.events ++ [.numbered (e + 1)], stop := s.stop,
        minValLoss := s.minValLoss, epochsRun := s.epochsRun + 1,
        earlyStopped := s.earlyStopped } hs
    exact ⟨h1, h2,
      h3.trans (by omega : s.epochsRun + 1 + n = s.epochsRun + (n + 1)),
      h4⟩

/-- C2 (code-bug evidence): under the code as written, *no* run ever
terminates early and the early-stop counter never leaves 0, whatever the
validation losses do — in particular a strictly worsening loss sequence
runs all configured epochs.  (`min_val_loss` is stuck at `math.inf`, so
line 282's test always passes and `stop += 1` is unreachable.) -/
theorem train_never_early_stops (epochs : ℕ) (v : ℕ → ℚ) :
    (train epochs v).epochsRun = epochs ∧
    (train epochs v).stop = 0 ∧
    (train epochs v).earlyStopped = false := by
  obtain ⟨h1, h2, h3, h4⟩ := trainLoop_min_inf v epochs 0 trainInit rfl
  refine ⟨?_, ?_, ?_⟩
  · show (trainLoop v 0 epochs trainInit).epochsRun = epochs
    rw [h3]
    show 0 + epochs = epochs
    omega
  · show (trainLoop v 0 epochs trainInit).stop = 0
    exact h1
  · show (trainLoop v 0 epochs trainInit).earlyStopped = false
    exact h2

/-- The epoch loop only ever appends checkpoint events. -/
theorem trainLoop_events_append (v : ℕ → ℚ) :
    ∀ (n e : ℕ) (s : TrainSt),
    ∃ t, (trainLoop v e n s).events = s.events ++ t := by
  intro n
  induction n with
  | zero => intro e s; exact ⟨[], (List.append_nil _).symm⟩
  | succ n ih =>
    intro e s
    simp only [trainLoop]
    split
    · obtain ⟨t, ht⟩ := ih (e + 1)
        { events := s.events ++ [.numbered (e + 1)], stop := s.stop,
          minValLoss := s.minValLoss, epochsRun := s.epochsRun + 1,
          earlyStopped := s.earlyStopped }
      exact ⟨[.numbered (e + 1)] ++ t,
        ht.trans (List.append_assoc s.events [.numbered (e + 1)] t)⟩
    · split
      · exact ⟨[], (List.append_nil _).symm⟩
      · obtain ⟨t, ht⟩ := ih (e + 1)
          { events := s.events, stop := s.stop + 1,
            minValLoss := s.minValLoss, epochsRun := s.epochsRun + 1,
            earlyStopped := s.earlyStopped }
        exact ⟨t, ht⟩

/-- C10: every run of `train` writes the unconditional latest checkpoint
(`checkpoint.pth.tar`) as its very first checkpoint action (line 227,
before the first epoch) and as its very last one (line 295, reached
whether the loop exhausted the configured epochs or broke out early). -/
theorem train_latest_checkpoint_first_and_last (epochs : ℕ) (v : ℕ → ℚ) :
    (train epochs v).events.head? = some .latest ∧
    (train epochs v).events.getLast? = some .latest := by
  obtain ⟨t, ht⟩ := trainLoop_events_append v epochs 0 trainInit
  constructor
  · show ((trainLoop v 0 epochs trainInit).events ++
      [CkptEvent.latest]).head? = some .latest
    rw [ht]
    rfl
  · show ((trainLoop v 0 epochs trainInit).events ++
      [CkptEvent.latest]).getLast? = some .latest
    exact List.getLast?_concat _

end BirdTrain
